import Mathlib

/-!
Verification of the Buffon-needle Monte-Carlo simulator (`src/main.py`).

The reusable core of the program is two functions:

* `estimate_pi(vec, needle_len, spacing)` — the π estimator, a pure
  arithmetic reduction of a 0/1 success vector; embedded below over `ℚ`
  (exact arithmetic in place of IEEE doubles).
* `buffon_needle_problem(n, needle_len, spacing)` — the needle sampler,
  a loop that draws random placements from the global `random` generator
  and classifies each as crossing or not; embedded below over `ℝ`
  (the geometry uses `sin`/`cos` of the drawn angle), with the ambient
  generator made explicit as a stream of draws in `[0, 1)`.
-/

/-- Shallow embedding of `estimate_pi(vec, needle_len, spacing)` from
`src/main.py` (lines 30-46).  The success vector holds the Python ints the
sampler appends, so `vec : List ℕ`; arithmetic is modelled exactly over `ℚ`.
The source computes `prob = np.sum(vec) / len(vec)`; on an empty vector this
is `np.float64(0.0) / 0`, which numpy evaluates to the float `NaN` with only
a `RuntimeWarning` (no exception), `NaN` is truthy so the `if not prob`
substitution is skipped, and `NaN` propagates to the returned value: `none`
stands for that non-numeric result.  On a non-empty vector every
intermediate is an ordinary finite value, modelled by `some`; `if not prob`
is true exactly when the float `prob` is `0.0`, and `1e-6` is the rational
`1 / 1000000`. -/
def estimate_pi (vec : List ℕ) (needle_len spacing : ℚ) : Option ℚ :=
  if vec.length = 0 then none
  else
    let prob : ℚ := (vec.sum : ℚ) / (vec.length : ℚ)
    let prob := if prob = 0 then 1 / 1000000 else prob
    some (2 * needle_len / (spacing * prob))

/-- Conversion `math.radians(d)` used on the drawn angle (line 67). -/
noncomputable def deg_to_rad (d : ℝ) : ℝ := d * Real.pi / 180

/-- CPython `random.uniform(a, b)` returns `a + (b - a) * random()`, where
`random()` is the next draw of the generator in `[0, 1)`; the draw is made
an explicit argument `r`. -/
def uniform (a b r : ℝ) : ℝ := a + (b - a) * r

/-- Endpoint x-coordinate of a needle:
`x_end = x_start + needle_len * math.cos(angle)` (line 69). -/
noncomputable def needle_x_end (x_start needle_len angle_deg : ℝ) : ℝ :=
  x_start + needle_len * Real.cos (deg_to_rad angle_deg)

/-- Endpoint y-coordinate of a needle:
`y_end = y_start + needle_len * math.sin(angle)` (line 70). -/
noncomputable def needle_y_end (y_start needle_len angle_deg : ℝ) : ℝ :=
  y_start + needle_len * Real.sin (deg_to_rad angle_deg)

/-- The grid line the source measures against:
`nearest_line = (y_start // spacing + 1) * spacing` (line 72), where Python
float floor-division `y // s` is the floor of the exact quotient. -/
noncomputable def nearest_line (y_start spacing : ℝ) : ℝ :=
  ((⌊y_start / spacing⌋ : ℤ) + 1) * spacing

/-- One iteration of the sampler loop (lines 65-79), applied to the three
already-drawn coordinates: the Python int appended to `success_vector`,
`1` when `y_end >= nearest_line` and `0` otherwise.  `x_start` is drawn and
used only for plotting; it does not influence the outcome. -/
noncomputable def trial (needle_len spacing x_start y_start angle_deg : ℝ) : ℕ :=
  if needle_y_end y_start needle_len angle_deg ≥ nearest_line y_start spacing
  then 1 else 0

/-- The sampler loop: `buffon_go needle_len spacing u m k` is the list of
outcomes of the remaining `m` iterations, where `u` is the stream of raw
generator draws in `[0, 1)` and `k` the index of the next unconsumed draw.
Each iteration consumes three draws, in source order: `x_start` and
`y_start` via `random.uniform(-10, 10)`, then the angle via
`random.uniform(0, 180)`. -/
noncomputable def buffon_go (needle_len spacing : ℝ) (u : ℕ → ℝ) : ℕ → ℕ → List ℕ
  | 0, _ => []
  | m + 1, k =>
      trial needle_len spacing (uniform (-10) 10 (u k)) (uniform (-10) 10 (u (k + 1)))
          (uniform 0 180 (u (k + 2))) ::
        buffon_go needle_len spacing u m (k + 3)

/-- Shallow embedding of `buffon_needle_problem(n, needle_len, spacing)`
(lines 49-84), with the ambient `random` generator made explicit as the draw
stream `u` together with the cursor `k` of the next unconsumed draw (the
generator state after seeding).  `n` is a Python int, so `n : ℤ`;
`for _ in range(n)` performs `max(n, 0)` iterations, hence the `toNat`. -/
noncomputable def buffon_needle_problem (n : ℤ) (needle_len spacing : ℝ)
    (u : ℕ → ℝ) (k : ℕ) : List ℕ :=
  buffon_go needle_len spacing u n.toNat k

/-- On a 0/1 list, the sum computed by `np.sum` coincides with the number of
entries equal to `1`. -/
theorem list_sum_eq_count_one (l : List ℕ) (h : ∀ x ∈ l, x = 0 ∨ x = 1) :
    l.sum = l.count 1 := by
  induction l with
  | nil => rfl
  | cons a t ih =>
      have ha := h a (List.mem_cons_self a t)
      have ht : ∀ x ∈ t, x = 0 ∨ x = 1 := fun x hx => h x (List.mem_cons_of_mem a hx)
      rcases ha with h0 | h1
      · subst h0
        simp [List.count_cons, ih ht]
      · subst h1
        simp [List.count_cons, ih ht, Nat.add_comm]

theorem length_ne_zero_of_ne_nil {l : List ℕ} (h : l ≠ []) : ¬ l.length = 0 :=
  fun hl => h (List.length_eq_zero.mp hl)

/-- C1: for every non-empty 0/1 outcome list `vec` and positive `needle_len`
and `spacing`, `estimate_pi` computes the success ratio
`p = (number of entries equal to 1) / len(vec)`, substitutes `1e-6` when `p`
is exactly `0`, and returns `2 * needle_len / (spacing * p)`. -/
theorem estimate_pi_success_ratio (vec : List ℕ) (needle_len spacing : ℚ)
    (hne : vec ≠ []) (h01 : ∀ x ∈ vec, x = 0 ∨ x = 1)
    (hL : 0 < needle_len) (hS : 0 < spacing) :
    estimate_pi vec needle_len spacing =
      some (2 * needle_len / (spacing *
        (if ((vec.count 1 : ℚ) / (vec.length : ℚ)) = 0 then 1 / 1000000
         else (vec.count 1 : ℚ) / (vec.length : ℚ)))) := by
  have hlen := length_ne_zero_of_ne_nil hne
  have hsum : vec.sum = vec.count 1 := list_sum_eq_count_one vec h01
  simp only [estimate_pi, if_neg hlen, hsum]

/-- C1 witness: on the concrete vector `[1, 0]` with `needle_len = 1` and
`spacing = 2`, the success ratio is `1 / 2` and the estimate is `2`. -/
theorem estimate_pi_success_ratio_witness :
    (0 : ℚ) < 1 ∧ (0 : ℚ) < 2 ∧ estimate_pi [1, 0] 1 2 = some 2 := by
  refine ⟨by norm_num, by norm_num, ?_⟩
  have h := estimate_pi_success_ratio [1, 0] 1 2 (by simp)
    (by intro x hx; simp at hx; rcases hx with h | h <;> simp [h])
    (by norm_num) (by norm_num)
  rw [h]
  norm_num

/-- C4: on an all-zero non-empty outcome vector with positive parameters,
the zero success rate is replaced by the floor `1e-6`, so `estimate_pi`
returns the finite positive number `2000000 * needle_len / spacing` rather
than raising or producing infinity. -/
theorem estimate_pi_all_zero (vec : List ℕ) (needle_len spacing : ℚ)
    (hne : vec ≠ []) (h0 : ∀ x ∈ vec, x = 0)
    (hL : 0 < needle_len) (hS : 0 < spacing) :
    estimate_pi vec needle_len spacing = some (2000000 * needle_len / spacing) ∧
      0 < 2000000 * needle_len / spacing := by
  have hlen := length_ne_zero_of_ne_nil hne
  have hsum : vec.sum = 0 := by
    rw [list_sum_eq_count_one vec (fun x hx => Or.inl (h0 x hx))]
    refine List.count_eq_zero.mpr (fun h1 => ?_)
    have := h0 1 h1
    simp at this
  constructor
  · simp only [estimate_pi, if_neg hlen, hsum]
    norm_num
    rw [show (2 : ℚ) * needle_len / (spacing * (1 / 1000000)) =
        2000000 * needle_len / spacing from by
      field_simp
      ring]
  · exact div_pos (mul_pos (by norm_num) hL) hS

/-- C4 witness: with `needle_len = 1/2` and `spacing = 1`, the all-zero
vector `[0, 0]` yields the estimate `1e6`. -/
theorem estimate_pi_all_zero_witness :
    (0 : ℚ) < 1 / 2 ∧ (0 : ℚ) < 1 ∧ estimate_pi [0, 0] (1 / 2) 1 = some 1000000 := by
  refine ⟨by norm_num, by norm_num, ?_⟩
  have h := estimate_pi_all_zero [0, 0] (1 / 2) 1 (by simp)
    (by intro x hx; simp at hx; simp [hx]) (by norm_num) (by norm_num)
  rw [h.1]
  norm_num

/-- C5 counterexample: on the empty vector the source does not raise.
`np.sum([]) / len([])` is `np.float64(0.0) / 0`, which numpy evaluates to
the float `NaN` with only a `RuntimeWarning`, so `estimate_pi([], 1, 1)`
returns the float `NaN` (modelled by `none`) instead of failing with an
error. -/
theorem estimate_pi_empty_returns_nan : estimate_pi [] 1 1 = none := rfl

/-- C5 amended: `estimate_pi` on an empty outcome sequence does not raise;
it silently returns the non-numeric float `NaN` (modelled by `none`) for
every choice of `needle_len` and `spacing`, and the precondition
`len(outcomes) > 0` remains the caller's responsibility. -/
theorem estimate_pi_empty_nan (needle_len spacing : ℚ) :
    estimate_pi [] needle_len spacing = none := rfl

/-- C6: the estimate is invariant under scaling both `needle_len` and
`spacing` by the same positive factor `c`. -/
theorem estimate_pi_scale_invariant (vec : List ℕ) (needle_len spacing c : ℚ)
    (hne : vec ≠ []) (hL : 0 < needle_len) (hS : 0 < spacing) (hc : 0 < c) :
    estimate_pi vec (c * needle_len) (c * spacing) =
      estimate_pi vec needle_len spacing := by
  have hlen := length_ne_zero_of_ne_nil hne
  simp only [estimate_pi, if_neg hlen]
  congr 1
  generalize (if ((vec.sum : ℚ) / (vec.length : ℚ)) = 0 then (1 : ℚ) / 1000000
      else ((vec.sum : ℚ) / (vec.length : ℚ))) = p
  rw [show c * spacing * p = c * (spacing * p) from mul_assoc c spacing p,
    show (2 : ℚ) * (c * needle_len) = c * (2 * needle_len) from by ring,
    mul_div_mul_left _ _ (ne_of_gt hc)]

/-- C6 witness: doubling both the needle length and the spacing leaves the
estimate on `[1]` unchanged. -/
theorem estimate_pi_scale_invariant_witness :
    (0 : ℚ) < 2 ∧ estimate_pi [1] (2 * 1) (2 * 1) = estimate_pi [1] 1 1 :=
  ⟨by norm_num,
    estimate_pi_scale_invariant [1] 1 1 2 (by simp) (by norm_num) (by norm_num)
      (by norm_num)⟩

/-- C9: the estimate depends only on the sum and the length of the outcome
vector, so it is invariant under permuting the outcomes. -/
theorem estimate_pi_perm_invariant (v w : List ℕ) (needle_len spacing : ℚ)
    (hp : v.Perm w) (hne : v ≠ []) (h01 : ∀ x ∈ v, x = 0 ∨ x = 1)
    (hL : 0 < needle_len) (hS : 0 < spacing) :
    estimate_pi v needle_len spacing = estimate_pi w needle_len spacing := by
  have hs : v.sum = w.sum := hp.sum_eq
  have hl : v.length = w.length := hp.length_eq
  simp only [estimate_pi, hs, hl]

/-- C9 witness: swapping the two entries of `[0, 1]` leaves the estimate
unchanged. -/
theorem estimate_pi_perm_invariant_witness :
    estimate_pi [0, 1] 1 1 = estimate_pi [1, 0] 1 1 :=
  estimate_pi_perm_invariant [0, 1] [1, 0] 1 1 (List.Perm.swap 1 0 [])
    (by simp) (by intro x hx; simp at hx; rcases hx with h | h <;> simp [h])
    (by norm_num) (by norm_num)

theorem buffon_go_length (needle_len spacing : ℝ) (u : ℕ → ℝ) :
    ∀ m k, (buffon_go needle_len spacing u m k).length = m := by
  intro m
  induction m with
  | zero => intro k; rfl
  | succ m ih =>
      intro k
      simp only [buffon_go, List.length_cons, ih]

theorem buffon_go_binary (needle_len spacing : ℝ) (u : ℕ → ℝ) :
    ∀ m k x, x ∈ buffon_go needle_len spacing u m k → x = 0 ∨ x = 1 := by
  intro m
  induction m with
  | zero =>
      intro k x hx
      simp only [buffon_go, List.not_mem_nil] at hx
  | succ m ih =>
      intro k x hx
      simp only [buffon_go, List.mem_cons] at hx
      rcases hx with h | h
      · subst h
        unfold trial
        split
        · exact Or.inr rfl
        · exact Or.inl rfl
      · exact ih (k + 3) x h

/-- C3: for every non-negative sample count `n`, the sampler returns an
ordered sequence of exactly `n` outcomes, each equal to `0` or `1`, and in
particular `n = 0` yields the empty sequence. -/
theorem buffon_needle_problem_outcomes (n : ℕ) (needle_len spacing : ℝ)
    (u : ℕ → ℝ) (k : ℕ) :
    (buffon_needle_problem n needle_len spacing u k).length = n ∧
      (buffon_needle_problem n needle_len spacing u k).all
        (fun x => x == 0 || x == 1) = true ∧
      buffon_needle_problem 0 needle_len spacing u k = [] := by
  refine ⟨?_, ?_, rfl⟩
  · exact buffon_go_length needle_len spacing u n k
  · rw [List.all_eq_true]
    intro x hx
    rcases buffon_go_binary needle_len spacing u n k x hx with h | h <;>
      simp [h]

/-- C2: with positive spacing, the reference line of a trial is the grid
line strictly above the start point, namely
`(floor(y_start / spacing) + 1) * spacing`; the outcome is `1` exactly when
`y_end` is greater than or equal to that line; and a start point lying
exactly on the grid multiple `m * spacing` is evaluated against the line
`(m + 1) * spacing`, one spacing above it. -/
theorem trial_crossing_rule (needle_len spacing x_start y_start angle_deg : ℝ)
    (hS : 0 < spacing) :
    y_start < nearest_line y_start spacing ∧
      (trial needle_len spacing x_start y_start angle_deg = 1 ↔
        needle_y_end y_start needle_len angle_deg ≥ nearest_line y_start spacing) ∧
      ∀ m : ℤ, y_start = m * spacing →
        nearest_line y_start spacing = ((m : ℝ) + 1) * spacing := by
  refine ⟨?_, ?_, ?_⟩
  · have h1 : y_start / spacing < ⌊y_start / spacing⌋ + 1 := Int.lt_floor_add_one _
    have h2 := (div_lt_iff₀ hS).mp h1
    simpa [nearest_line] using h2
  · unfold trial
    split
    · simp_all
    · simp_all
  · intro m hm
    have hz : spacing ≠ 0 := ne_of_gt hS
    rw [nearest_line, hm, mul_div_assoc, div_self hz, mul_one, Int.floor_intCast]

/-- C2 witness: with `spacing = 1`, a needle starting exactly on the grid
line `y = 0` is measured against the line `y = 1`, and with length `1` and
angle `90°` its endpoint reaches that line exactly, so the greater-or-equal
comparison counts it as a crossing. -/
theorem trial_crossing_rule_witness :
    (0 : ℝ) < 1 ∧ nearest_line 0 1 = 1 ∧ trial 1 1 0 0 90 = 1 := by
  have h := trial_crossing_rule 1 1 0 0 90 one_pos
  have hn : nearest_line 0 1 = 1 := by
    have h0 := h.2.2 0 (by norm_num)
    simpa using h0
  have hrad : deg_to_rad 90 = Real.pi / 2 := by
    unfold deg_to_rad
    ring
  have hy : needle_y_end 0 1 90 = 1 := by
    rw [needle_y_end, hrad, Real.sin_pi_div_two]
    ring
  refine ⟨one_pos, hn, h.2.1.mpr ?_⟩
  rw [hy, hn]

/-- C7 counterexample: invalid parameters do not cause any failure.  A
negative sample count silently yields the empty outcome list, and a
negative spacing makes the estimator silently return the nonsensical
negative value `-2` as an estimate of π; neither call raises an error. -/
theorem no_fail_fast_counterexample :
    buffon_needle_problem (-1) 1 1 (fun _ => 0) 0 = [] ∧
      estimate_pi [1, 1] 1 (-1) = some (-2) := by
  constructor
  · rfl
  · norm_num [estimate_pi]

/-- C7 amended: the code performs no parameter validation at all.  The
sampler accepts a negative sample count and silently returns the empty
outcome list, and the estimator returns a numeric value on every non-empty
vector for every needle length and spacing, including non-positive ones,
rather than failing fast with a descriptive error. -/
theorem no_parameter_validation :
    (∀ n : ℤ, n < 0 → ∀ (needle_len spacing : ℝ) (u : ℕ → ℝ) (k : ℕ),
        buffon_needle_problem n needle_len spacing u k = []) ∧
      (∀ (vec : List ℕ) (needle_len spacing : ℚ), vec ≠ [] →
        ∃ r : ℚ, estimate_pi vec needle_len spacing = some r) := by
  constructor
  · intro n hn needle_len spacing u k
    have h0 : n.toNat = 0 := Int.toNat_of_nonpos (le_of_lt hn)
    simp only [buffon_needle_problem, h0, buffon_go]
  · intro vec needle_len spacing hne
    exact ⟨2 * needle_len / (spacing *
        (if ((vec.sum : ℚ) / (vec.length : ℚ)) = 0 then 1 / 1000000
         else (vec.sum : ℚ) / (vec.length : ℚ))),
      by simp only [estimate_pi, if_neg (length_ne_zero_of_ne_nil hne)]⟩

/-- C7 witness: the sampler called with `n = -3` returns the empty list
without error, and the estimator called with needle length `0` and spacing
`-5` on `[1]` still returns a numeric value. -/
theorem no_parameter_validation_witness :
    buffon_needle_problem (-3) 2 5 (fun _ => 0) 4 = [] ∧
      (estimate_pi [1] 0 (-5)).isSome = true := by
  constructor
  · exact no_parameter_validation.1 (-3) (by norm_num) 2 5 (fun _ => 0) 4
  · exact Option.isSome_iff_exists.mpr (no_parameter_validation.2 [1] 0 (-5) (by simp))

/-- C8: the sampler is a deterministic function of the explicit generator
state: two runs over generator streams that produce the same draws, started
at the same cursor, return identical outcome sequences. -/
theorem buffon_needle_problem_deterministic (n : ℤ) (needle_len spacing : ℝ)
    (u v : ℕ → ℝ) (k : ℕ) (h : ∀ i, u i = v i) :
    buffon_needle_problem n needle_len spacing u k =
      buffon_needle_problem n needle_len spacing v k := by
  have huv : u = v := funext h
  rw [huv]

/-- C8 witness: two syntactically different generator streams producing the
same draws give identical outcome sequences for two samples. -/
theorem buffon_needle_problem_deterministic_witness :
    buffon_needle_problem 2 1 1 (fun _ => 0) 0 =
      buffon_needle_problem 2 1 1 (fun i => 0 * (i : ℝ)) 0 :=
  buffon_needle_problem_deterministic 2 1 1 (fun _ => 0) (fun i => 0 * (i : ℝ)) 0
    (fun i => (zero_mul (i : ℝ)).symm)

/-- C10: with the angle drawn from `[0°, 180°]`, where the sine is
non-negative, and a positive needle length, the endpoint of every sampled
needle satisfies `y_end ≥ y_start`: no needle points downward. -/
theorem needle_y_end_ge_start (y_start needle_len angle_deg : ℝ)
    (h0 : 0 ≤ angle_deg) (h180 : angle_deg ≤ 180) (hL : 0 < needle_len) :
    needle_y_end y_start needle_len angle_deg ≥ y_start := by
  have hpi : (0 : ℝ) < Real.pi := Real.pi_pos
  have hr0 : 0 ≤ deg_to_rad angle_deg := by
    unfold deg_to_rad
    exact div_nonneg (mul_nonneg h0 (le_of_lt hpi)) (by norm_num)
  have hrpi : deg_to_rad angle_deg ≤ Real.pi := by
    unfold deg_to_rad
    rw [div_le_iff₀ (by norm_num : (0 : ℝ) < 180)]
    nlinarith
  have hsin : 0 ≤ Real.sin (deg_to_rad angle_deg) :=
    Real.sin_nonneg_of_nonneg_of_le_pi hr0 hrpi
  unfold needle_y_end
  nlinarith [mul_nonneg (le_of_lt hL) hsin]

/-- C10 witness: a needle of length `2` starting at `y = 5` with angle `90°`
has its endpoint at or above its start. -/
theorem needle_y_end_ge_start_witness :
    (0 : ℝ) ≤ 90 ∧ (90 : ℝ) ≤ 180 ∧ (0 : ℝ) < 2 ∧ needle_y_end 5 2 90 ≥ 5 :=
  ⟨by norm_num, by norm_num, by norm_num,
    needle_y_end_ge_start 5 2 90 (by norm_num) (by norm_num) (by norm_num)⟩
